import Mathlib

set_option autoImplicit false

/-!
Verification development for the `electronics_shops_integration` matching stage.

Shallow embedding of the two product matchers and their shared utilities:
* `src/4_matching/matching.py` — the embedding-based greedy matcher
  (`clean_text`, `flatten_json_for_text`, `json_to_representative_string`,
  `parse_and_convert_specs`, `have_no_shared_model_tokens`, `match_products`);
* `src/5_matching/testing/matching_test.py` — the two-phase field matcher
  (`normalize_text`, `load_products`, `calculate_spec_similarity`,
  `match_products`).

Numeric similarity scores (Python floats produced by cosine similarity) are
modelled as rationals; embeddings themselves are abstracted into similarity
matrices handed to the matcher, mirroring how the matcher only ever consumes
`title_similarity_matrix[i][j]` and pairwise spec cosine scores.
-/

/-! ## JSON values (model of what Python's `json.loads` returns)

Python distinctions that matter here are kept: booleans stringify to
`"True"`/`"False"`, `null` maps to `None` (null-like for `pd.isnull`), object
keys are unique (later duplicate keys in the source text overwrite earlier
ones, keeping the first key's position, exactly like a Python `dict`).
Numbers are modelled as integers only: JSON float literals (fraction or
exponent) are outside the model and make the model parser fail.
-/

inductive Json where
  | null : Json
  | bool (b : Bool) : Json
  | num (n : Int) : Json
  | str (s : String) : Json
  | arr (xs : List Json) : Json
  | obj (entries : List (String × Json)) : Json

mutual

def jsonSize : Json → Nat
  | Json.null => 1
  | Json.bool _ => 1
  | Json.num _ => 1
  | Json.str _ => 1
  | Json.arr xs => 1 + jsonListSize xs
  | Json.obj es => 1 + jsonEntriesSize es

def jsonListSize : List Json → Nat
  | [] => 1
  | x :: xs => 1 + jsonSize x + jsonListSize xs

def jsonEntriesSize : List (String × Json) → Nat
  | [] => 1
  | (_, v) :: es => 1 + jsonSize v + jsonEntriesSize es

end

theorem jsonSize_pos (a : Json) : 0 < jsonSize a := by
  cases a <;> simp [jsonSize]

theorem jsonListSize_pos (xs : List Json) : 0 < jsonListSize xs := by
  cases xs <;> simp [jsonListSize]

theorem jsonEntriesSize_pos (es : List (String × Json)) : 0 < jsonEntriesSize es := by
  cases es <;> simp [jsonEntriesSize]

/-- Argument tag for the fuel-indexed structural equality test on `Json`
(nested-inductive recursion, made structural in the fuel so that it evaluates
by kernel reduction). -/
inductive BeqIn where
  | jj (a b : Json) : BeqIn
  | ll (xs ys : List Json) : BeqIn
  | ee (es fs : List (String × Json)) : BeqIn

def beqF : Nat → BeqIn → Bool
  | 0, _ => false
  | fuel + 1, BeqIn.jj a b =>
    match a, b with
    | Json.null, Json.null => true
    | Json.bool x, Json.bool y => x == y
    | Json.num x, Json.num y => x == y
    | Json.str x, Json.str y => x == y
    | Json.arr xs, Json.arr ys => beqF fuel (BeqIn.ll xs ys)
    | Json.obj es, Json.obj fs => beqF fuel (BeqIn.ee es fs)
    | _, _ => false
  | fuel + 1, BeqIn.ll xs ys =>
    match xs, ys with
    | [], [] => true
    | x :: xs', y :: ys' => beqF fuel (BeqIn.jj x y) && beqF fuel (BeqIn.ll xs' ys')
    | _, _ => false
  | fuel + 1, BeqIn.ee es fs =>
    match es, fs with
    | [], [] => true
    | (k1, v1) :: es', (k2, v2) :: fs' =>
      k1 == k2 && beqF fuel (BeqIn.jj v1 v2) && beqF fuel (BeqIn.ee es' fs')
    | _, _ => false

theorem beqF_correct : ∀ fuel : Nat,
    (∀ a b : Json, jsonSize a + jsonSize b ≤ fuel →
      (beqF fuel (BeqIn.jj a b) = true ↔ a = b)) ∧
    (∀ xs ys : List Json, jsonListSize xs + jsonListSize ys ≤ fuel →
      (beqF fuel (BeqIn.ll xs ys) = true ↔ xs = ys)) ∧
    (∀ es fs : List (String × Json), jsonEntriesSize es + jsonEntriesSize fs ≤ fuel →
      (beqF fuel (BeqIn.ee es fs) = true ↔ es = fs)) := by
  intro fuel
  induction fuel with
  | zero =>
    refine ⟨fun a b h => absurd h ?_, fun xs ys h => absurd h ?_,
      fun es fs h => absurd h ?_⟩
    · have := jsonSize_pos a; omega
    · have := jsonListSize_pos xs; omega
    · have := jsonEntriesSize_pos es; omega
  | succ f ih =>
    obtain ⟨ihj, ihl, ihe⟩ := ih
    refine ⟨fun a b h => ?_, fun xs ys h => ?_, fun es fs h => ?_⟩
    · cases a <;> cases b <;> simp [beqF]
      case arr.arr xs ys =>
        simp only [jsonSize] at h
        exact ihl xs ys (by omega)
      case obj.obj es fs =>
        simp only [jsonSize] at h
        exact ihe es fs (by omega)
    · cases xs with
      | nil => cases ys <;> simp [beqF]
      | cons x xs' =>
        cases ys with
        | nil => simp [beqF]
        | cons y ys' =>
          simp only [beqF, Bool.and_eq_true, List.cons.injEq]
          simp only [jsonListSize] at h
          have h1 := jsonSize_pos x
          rw [ihj x y (by omega), ihl xs' ys' (by omega)]
    · cases es with
      | nil => cases fs <;> simp [beqF]
      | cons e es' =>
        cases fs with
        | nil => simp [beqF]
        | cons g fs' =>
          obtain ⟨k1, v1⟩ := e
          obtain ⟨k2, v2⟩ := g
          simp only [beqF, Bool.and_eq_true, List.cons.injEq, Prod.mk.injEq,
            beq_iff_eq]
          simp only [jsonEntriesSize] at h
          rw [ihj v1 v2 (by omega), ihe es' fs' (by omega)]

instance : DecidableEq Json := fun a b =>
  decidable_of_iff (beqF (jsonSize a + jsonSize b) (BeqIn.jj a b) = true)
    ((beqF_correct (jsonSize a + jsonSize b)).1 a b le_rfl)

/-- Python `dict` insertion: a repeated key overwrites the stored value but
keeps the position of the first insertion. -/
def insertEntry (es : List (String × Json)) (k : String) (v : Json) :
    List (String × Json) :=
  if es.any (fun e => e.1 == k) then
    es.map (fun e => if e.1 == k then (k, v) else e)
  else
    es ++ [(k, v)]

/-- JSON whitespace, as accepted between tokens by `json.loads`. -/
def isJsonWs (c : Char) : Bool :=
  c == ' ' || c == '\t' || c == '\n' || c == '\r'

def skipWs : List Char → List Char
  | [] => []
  | c :: cs => if isJsonWs c then skipWs cs else c :: cs

/-- String body scanner (after the opening quote).  Common escapes are
supported; `\u` escapes are outside the model. -/
def scanStr (acc : List Char) : List Char → Option (String × List Char)
  | [] => none
  | '"' :: r => some (String.mk acc.reverse, r)
  | '\\' :: e :: r =>
    match e with
    | '"' => scanStr ('"' :: acc) r
    | '\\' => scanStr ('\\' :: acc) r
    | '/' => scanStr ('/' :: acc) r
    | 'n' => scanStr ('\n' :: acc) r
    | 't' => scanStr ('\t' :: acc) r
    | 'r' => scanStr ('\r' :: acc) r
    | 'b' => scanStr (Char.ofNat 8 :: acc) r
    | 'f' => scanStr (Char.ofNat 12 :: acc) r
    | _ => none
  | '\\' :: [] => none
  | c :: r => scanStr (c :: acc) r

def digitsToNat (acc : Nat) : List Char → Nat × List Char
  | [] => (acc, [])
  | c :: cs =>
    if c.isDigit then digitsToNat (acc * 10 + (c.toNat - 48)) cs
    else (acc, c :: cs)

/-- Integer literal scanner.  A literal continued by `.`/`e`/`E` would be a
float in `json.loads`; floats are outside the model so the scan fails there. -/
def scanNum : List Char → Option (Json × List Char)
  | '-' :: cs =>
    match cs with
    | c :: _ =>
      if c.isDigit then
        let (n, rest) := digitsToNat 0 cs
        match rest with
        | r :: _ => if r == '.' || r == 'e' || r == 'E' then none
                    else some (Json.num (-(n : Int)), rest)
        | [] => some (Json.num (-(n : Int)), rest)
      else none
    | [] => none
  | c :: cs =>
    if c.isDigit then
      let (n, rest) := digitsToNat 0 (c :: cs)
      match rest with
      | r :: _ => if r == '.' || r == 'e' || r == 'E' then none
                  else some (Json.num (n : Int), rest)
      | [] => some (Json.num (n : Int), rest)
    else none
  | [] => none

/-- Parsing modes: a single value, the elements of an array after `[`, or the
entries of an object after `{`. -/
inductive PMode where
  | value : PMode
  | arrElems (acc : List Json) : PMode
  | objEntries (acc : List (String × Json)) : PMode

/-- Fuel-indexed recursive-descent model of `json.loads`.  The fuel is
structural so the function evaluates by kernel reduction; the entry point
supplies more fuel than any input can consume. -/
def parseF : Nat → PMode → List Char → Option (Json × List Char)
  | 0, _, _ => none
  | fuel + 1, PMode.value, cs =>
    match skipWs cs with
    | 'n' :: 'u' :: 'l' :: 'l' :: r => some (Json.null, r)
    | 't' :: 'r' :: 'u' :: 'e' :: r => some (Json.bool true, r)
    | 'f' :: 'a' :: 'l' :: 's' :: 'e' :: r => some (Json.bool false, r)
    | '"' :: r =>
      match scanStr [] r with
      | some (s, r2) => some (Json.str s, r2)
      | none => none
    | '[' :: r =>
      (match skipWs r with
       | ']' :: r2 => some (Json.arr [], r2)
       | _ => parseF fuel (PMode.arrElems []) r)
    | '{' :: r =>
      (match skipWs r with
       | '}' :: r2 => some (Json.obj [], r2)
       | _ => parseF fuel (PMode.objEntries []) r)
    | cs' => scanNum cs'
  | fuel + 1, PMode.arrElems acc, cs =>
    match parseF fuel PMode.value cs with
    | some (j, r) =>
      (match skipWs r with
       | ',' :: r2 => parseF fuel (PMode.arrElems (acc ++ [j])) r2
       | ']' :: r2 => some (Json.arr (acc ++ [j]), r2)
       | _ => none)
    | none => none
  | fuel + 1, PMode.objEntries acc, cs =>
    match skipWs cs with
    | '"' :: r =>
      (match scanStr [] r with
       | some (k, r2) =>
         (match skipWs r2 with
          | ':' :: r3 =>
            (match parseF fuel PMode.value r3 with
             | some (v, r4) =>
               (match skipWs r4 with
                | ',' :: r5 => parseF fuel (PMode.objEntries (insertEntry acc k v)) r5
                | '}' :: r5 => some (Json.obj (insertEntry acc k v), r5)
                | _ => none)
             | none => none)
          | _ => none)
       | none => none)
    | _ => none

/-- Model of `json.loads`: parse one value, then require only trailing
whitespace (anything else raises `JSONDecodeError`, i.e. `none`). -/
def parseJson (s : String) : Option Json :=
  match parseF (2 * s.length + 2) PMode.value s.toList with
  | some (j, rest) => if skipWs rest = [] then some j else none
  | none => none

/-! ## Spec flattening (`flatten_json_for_text`, `json_to_representative_string`)

`matching.py` walks a parsed JSON value and collects text parts: object keys
in `sorted(data.keys())` order, each followed by the flattening of its value;
array elements in order; scalars via Python `str(...)` unless null-like or
whitespace-only.  Since a Python `dict` has unique keys, iterating its sorted
keys and looking each value up is the same as sorting the (key, value) entry
list by key, which is how the model phrases it. -/

/-- Python `str.lower()` (ASCII case mapping, by code point). -/
def pyLower (s : String) : String :=
  String.mk (s.toList.map Char.toLower)

/-- Python `str.strip()`: remove leading and trailing whitespace. -/
def pyStrip (s : String) : String :=
  String.mk
    (((s.toList.dropWhile Char.isWhitespace).reverse.dropWhile
        Char.isWhitespace).reverse)

def entryLE (a b : String × Json) : Prop := a.1 ≤ b.1

instance : DecidableRel entryLE := fun a b =>
  inferInstanceAs (Decidable (a.1 ≤ b.1))

instance : IsTotal (String × Json) entryLE :=
  ⟨fun a b => le_total a.1 b.1⟩

instance : IsTrans (String × Json) entryLE :=
  ⟨fun _ _ _ h1 h2 => le_trans h1 h2⟩

/-- Sorting the entries of a JSON object by key — the model of
`sorted(data.keys())` (Python sorts strings lexicographically by code point,
as `String.le` does for the characters appearing here). -/
def sortEntriesByKey (es : List (String × Json)) : List (String × Json) :=
  List.insertionSort entryLE es

/-- Python `str(...)` on the scalar JSON values the flattener can meet. -/
def pyStrBool : Bool → String
  | true => "True"
  | false => "False"

/-- Fuel-indexed model of `flatten_json_for_text` (fuel makes the nested
recursion structural; `jsonSize` strictly dominates the recursion depth, so
the entry point below always supplies enough). -/
def flattenF : Nat → Json → List String
  | 0, _ => []
  | _ + 1, Json.null => []
  | _ + 1, Json.bool b => [pyStrBool b]
  | _ + 1, Json.num n => [toString n]
  | _ + 1, Json.str s => if pyStrip s = "" then [] else [s]
  | fuel + 1, Json.arr xs => xs.flatMap (fun x => flattenF fuel x)
  | fuel + 1, Json.obj es =>
    (sortEntriesByKey es).flatMap (fun e => e.1 :: flattenF fuel e.2)

def flatten_json_for_text (j : Json) : List String :=
  flattenF (jsonSize j) j

/-- `" ".join(part for part in flat_parts if part)`. -/
def joinParts (parts : List String) : String :=
  String.intercalate " " (parts.filter (fun p => p != ""))

/-- Model of `json_to_representative_string`.  `none` models the uncaught
`ValueError` that `pd.isnull(...)` raises on a top-level JSON array of two or
more elements (`bool()` of a multi-element numpy array); that branch is dead
for every claim below but is kept so the model does not silently succeed where
the code would throw. -/
def json_to_representative_string : Json → Option String
  | Json.obj es => some (joinParts (flatten_json_for_text (Json.obj es)))
  | Json.null => some ""
  | Json.bool b => some (pyStrBool b)
  | Json.num n => some (toString n)
  | Json.str s => if pyStrip s = "" then some "" else some s
  | Json.arr [] => some (joinParts (flatten_json_for_text (Json.arr [])))
  | Json.arr [x] =>
    if x = Json.null then some ""
    else some (joinParts (flatten_json_for_text (Json.arr [x])))
  | Json.arr _ => none

/-- Model of `parse_and_convert_specs` inside `preprocess_dataframe`.
The input is the raw `extracted_specs` cell: `none` models a missing cell
(`pd.isnull`).  The result is `some` of the embedding text; `none` would be an
uncaught exception (never produced by a JSON parse failure, which is caught
and falls back to the raw text). -/
def parse_and_convert_specs : Option String → Option String
  | none => some ""
  | some s =>
    if pyStrip s = "" then some ""
    else
      match parseJson s with
      | some j => json_to_representative_string j
      | none => some s

/-! ## Token-overlap guard

`have_no_shared_model_tokens` extracts, from each (already cleaned and
re-lowercased) string, the tokens matched by the regex
`\b[a-zA-Z0-9]*\d[a-zA-Z0-9]*\b` and reports whether the two token sets are
disjoint.  A match of that regex must span a maximal run of word characters
(interior positions are not word boundaries), so the tokens are exactly the
maximal word-character runs that consist of ASCII alphanumerics only and
contain at least one digit.  Word characters are modelled as ASCII
alphanumerics plus the underscore (the code's cleaned inputs are lowercase
`\w\s` text; non-ASCII word characters are outside the model). -/

def isWordChar (c : Char) : Bool := c.isAlphanum || c == '_'

/-- Split into maximal runs of word characters (first argument: the current
run being accumulated, in reverse). -/
def wordRunsAux : List Char → List Char → List (List Char)
  | cur, [] => if cur.isEmpty then [] else [cur.reverse]
  | cur, c :: cs =>
    if isWordChar c then wordRunsAux (c :: cur) cs
    else if cur.isEmpty then wordRunsAux [] cs
    else cur.reverse :: wordRunsAux [] cs

/-- A word run matched by the model-token regex: all ASCII alphanumeric and
containing at least one digit. -/
def isModelToken (run : List Char) : Bool :=
  run.all (fun c => c.isAlphanum) && run.any (fun c => c.isDigit)

/-- The digit-bearing alphanumeric tokens of `s.lower()`, in order. -/
def modelTokens (s : String) : List String :=
  ((wordRunsAux [] (s.toList.map Char.toLower)).filter isModelToken).map
    (fun run => String.mk run)

/-- `have_no_shared_model_tokens(spec1_clean_str, spec2_clean_str)`: the two
token sets have empty intersection. -/
def have_no_shared_model_tokens (s1 s2 : String) : Bool :=
  (modelTokens s1).all (fun t => !(modelTokens s2).contains t)

/-- The composite reject condition applied by `match_products`
(matching.py, the `if len(specs1_clean_str) > 10 and len(specs2_clean_str) > 10
and have_no_shared_model_tokens(...)` guard): both cleaned spec strings are
longer than 10 characters and share no model token. -/
def guardRejects (s1 s2 : String) : Bool :=
  decide (10 < s1.length) && decide (10 < s2.length)
    && have_no_shared_model_tokens s1 s2

/-! ## Embedding-based greedy matcher (`match_products` in matching.py)

The similarity matrices and the cleaned spec strings are the matcher's only
inputs, bundled in `SimData`; `n1`/`n2` are the catalog sizes.  Scores are
rationals standing for the float cosine similarities. -/

structure SimData where
  titleSim : Nat → Nat → ℚ
  specSim : Nat → Nat → ℚ
  specs1 : Nat → String
  specs2 : Nat → String

structure EmbParams where
  topK : Nat
  titleThreshold : ℚ
  specThreshold : ℚ
deriving DecidableEq

structure EmbMatch where
  idx1 : Nat
  idx2 : Nat
  titleScore : ℚ
  specScore : ℚ
deriving DecidableEq

/-- Candidate order for row `i`: `np.argsort(row)[-top_k:][::-1]`, i.e. the
`top_k` indices of largest similarity in descending order (ties broken by
smaller index; numpy's unstable quicksort leaves tie order unspecified, and no
claim below depends on it).  `top_k = 0` reproduces the Python `[-0:]` quirk:
the slice is the whole array, so every index stays a candidate. -/
def candLE (row : Nat → ℚ) (a b : Nat) : Prop :=
  row b < row a ∨ (row a = row b ∧ a ≤ b)

instance (row : Nat → ℚ) : DecidableRel (candLE row) := fun a b =>
  inferInstanceAs (Decidable (row b < row a ∨ (row a = row b ∧ a ≤ b)))

def candidateIndices (row : Nat → ℚ) (n2 topK : Nat) : List Nat :=
  let sortedDesc := List.insertionSort (candLE row) (List.range n2)
  if topK = 0 then sortedDesc else sortedDesc.take topK

/-- The running best candidate's combined score: `highest_overall_score`
starts at `-1` and is otherwise `(title + spec) / 2` of the stored best. -/
def bestScore : Option EmbMatch → ℚ
  | none => -1
  | some m => (m.titleScore + m.specScore) / 2

/-- The inner candidate scan for one catalog-A index `i`: skip claimed
B-indices, stop the whole scan at the first title score below
`title_threshold`, skip (but keep scanning) on a spec score below
`spec_threshold` or on a guard rejection, and keep the candidate with the
strictly highest combined score. -/
def scanCandidates (sim : SimData) (P : EmbParams) (claimed : List Nat)
    (i : Nat) : List Nat → Option EmbMatch → Option EmbMatch
  | [], best => best
  | j :: rest, best =>
    if j ∈ claimed then scanCandidates sim P claimed i rest best
    else if sim.titleSim i j < P.titleThreshold then best
    else if sim.specSim i j < P.specThreshold then
      scanCandidates sim P claimed i rest best
    else if guardRejects (sim.specs1 i) (sim.specs2 j) then
      scanCandidates sim P claimed i rest best
    else if bestScore best < (sim.titleSim i j + sim.specSim i j) / 2 then
      scanCandidates sim P claimed i rest
        (some ⟨i, j, sim.titleSim i j, sim.specSim i j⟩)
    else scanCandidates sim P claimed i rest best

/-- The outer loop over catalog-A indices, threading the claimed-B set and the
committed matches. -/
def embLoop (sim : SimData) (P : EmbParams) (n2 : Nat) :
    List Nat → List Nat → List EmbMatch → List EmbMatch
  | [], _, results => results
  | i :: is, claimed, results =>
    match scanCandidates sim P claimed i
        (candidateIndices (sim.titleSim i) n2 P.topK) none with
    | some m => embLoop sim P n2 is (claimed ++ [m.idx2]) (results ++ [m])
    | none => embLoop sim P n2 is claimed results

/-- Model of `match_products(file1, file2, ...)` after both catalogs are
loaded and embedded: the greedy matching loop itself. -/
def match_products_emb (sim : SimData) (P : EmbParams) (n1 n2 : Nat) :
    List EmbMatch :=
  embLoop sim P n2 (List.range n1) [] []

/-- The per-candidate threshold-and-guard filter of the embedding matcher;
every committed match passes it (`embLoop_filters` below). -/
def passesFilters (sim : SimData) (P : EmbParams) (i j : Nat) : Prop :=
  P.titleThreshold ≤ sim.titleSim i j ∧ P.specThreshold ≤ sim.specSim i j ∧
    guardRejects (sim.specs1 i) (sim.specs2 j) = false

instance (sim : SimData) (P : EmbParams) (i j : Nat) :
    Decidable (passesFilters sim P i j) :=
  inferInstanceAs (Decidable (_ ∧ _ ∧ _))

/-! ## Two-phase field matcher (`matching_test.py`) -/

/-- `normalize_text`: `re.sub(r'[\W_]+', '', text).lower()` — keep only word
characters other than underscore (modelled as ASCII alphanumerics), then
lowercase. -/
def normalize_text (s : String) : String :=
  String.mk ((s.toList.filter (fun c => c.isAlphanum)).map Char.toLower)

/-- One loaded product row, with the fields the matcher consumes.  `id` models
the unique `f"{filepath}-{i}"` row id as the row index; `extracted_specs` is
the parsed JSON object (`load_products` only keeps rows whose spec cell parses;
see `load_products` below). -/
structure FProduct where
  id : Nat
  norm_model_name : String
  norm_category : String
  extracted_specs : List (String × Json)
deriving DecidableEq

/-- Python `str.lower().strip()` applied to a string spec value before
comparison. -/
def pyLowerStrip (s : String) : String := pyStrip (pyLower s)

/-- Value normalization inside `calculate_spec_similarity`: only `str` values
are lowercased and stripped; anything else (including a missing value,
`None`) is compared as-is. -/
def pyNormVal : Option Json → Option Json
  | some (Json.str s) => some (Json.str (pyLowerStrip s))
  | v => v

/-- `specs.get(key)`: `None` (here `none`) when the key is absent. -/
def specGet (specs : List (String × Json)) (k : String) : Option Json :=
  (specs.find? (fun e => e.1 == k)).map (fun e => e.2)

/-- Model of `calculate_spec_similarity(specs1, specs2)`: 0 if either map is
empty; else the fraction of union keys whose (string-normalized) values
compare equal, a missing key counting as a non-match.  The
`if not all_keys: return 1.0` branch of the code is unreachable for non-empty
maps but kept. -/
def calculate_spec_similarity (s1 s2 : List (String × Json)) : ℚ :=
  if s1 = [] ∨ s2 = [] then 0
  else
    let allKeys := ((s1 ++ s2).map (fun e => e.1)).dedup
    if allKeys = [] then 1
    else
      ((allKeys.filter
        (fun k => pyNormVal (specGet s1 k) == pyNormVal (specGet s2 k))).length : ℚ)
        / (allKeys.length : ℚ)

/-- A committed match of the field matcher (`matches.append({...})`). -/
structure FMatch where
  product1 : FProduct
  product2 : FProduct
  match_type : String
  score : ℚ
deriving DecidableEq

/-- Phase-1 best-candidate selection over one model-name group: keep the
candidate with the same normalized category and the strictly highest spec
similarity (`if score > highest_score`, `highest_score` starting at -1). -/
def phase1Best (p1 : FProduct) :
    List FProduct → Option FProduct → ℚ → Option FProduct × ℚ
  | [], best, hs => (best, hs)
  | p2 :: rest, best, hs =>
    if p1.norm_category = p2.norm_category then
      if hs < calculate_spec_similarity p1.extracted_specs p2.extracted_specs then
        phase1Best p1 rest (some p2)
          (calculate_spec_similarity p1.extracted_specs p2.extracted_specs)
      else phase1Best p1 rest best hs
    else phase1Best p1 rest best hs

/-- State threaded through phase 1: the model-name grouping of the remaining
catalog-B records (a `defaultdict(list)` whose key set stays the full set of
B model names; committed B records are `list.remove`d from their group), the
committed matches, and the catalog-A records left for phase 2. -/
structure P1State where
  mmap : String → List FProduct
  matchList : List FMatch
  still1 : List FProduct

/-- One iteration of the phase-1 `for prod1 in unmatched1` loop. -/
def phase1Step (products2 : List FProduct) (st : P1State) (p1 : FProduct) :
    P1State :=
  if products2.any (fun p => p.norm_model_name == p1.norm_model_name) then
    match phase1Best p1 (st.mmap p1.norm_model_name) none (-1) with
    | (some p2, hs) =>
      { mmap := fun k =>
          if k = p1.norm_model_name then (st.mmap k).erase p2 else st.mmap k
        matchList := st.matchList ++ [⟨p1, p2, "Model Name & Category", hs⟩]
        still1 := st.still1 }
    | (none, _) => { st with still1 := st.still1 ++ [p1] }
  else { st with still1 := st.still1 ++ [p1] }

def phase1Run (products2 : List FProduct) :
    List FProduct → P1State → P1State
  | [], st => st
  | p1 :: rest, st => phase1Run products2 rest (phase1Step products2 st p1)

/-- The initial `model_name_map`: catalog B grouped by normalized model name
(group contents in original B order). -/
def initMap (products2 : List FProduct) : String → List FProduct :=
  fun k => products2.filter (fun p => p.norm_model_name = k)

/-- The normalized model names of catalog B in order of first appearance —
the key iteration order of the `defaultdict` when `still_unmatched2` is
rebuilt from `model_name_map.values()`. -/
def firstOccNames (ps : List FProduct) : List String :=
  ps.foldl
    (fun acc p =>
      if p.norm_model_name ∈ acc then acc else acc ++ [p.norm_model_name])
    []

/-- Phase-2 best-candidate selection: skip B records already consumed in
phase 2, keep the strictly highest spec similarity, with the running best
initialized to the threshold (`highest_score = spec_similarity_threshold`). -/
def phase2Best (p1 : FProduct) (ids : List Nat) :
    List FProduct → Option FProduct → ℚ → Option FProduct × ℚ
  | [], best, hs => (best, hs)
  | p2 :: rest, best, hs =>
    if p2.id ∈ ids then phase2Best p1 ids rest best hs
    else
      if hs < calculate_spec_similarity p1.extracted_specs p2.extracted_specs then
        phase2Best p1 ids rest (some p2)
          (calculate_spec_similarity p1.extracted_specs p2.extracted_specs)
      else phase2Best p1 ids rest best hs

structure P2State where
  matchedIds : List Nat
  matchList : List FMatch

/-- One iteration of the phase-2 `for prod1 in still_unmatched1` loop; the
category grouping `category_map.get(...)` of the leftover B records is the
category filter over `still2`. -/
def phase2Step (still2 : List FProduct) (θ : ℚ) (st : P2State)
    (p1 : FProduct) : P2State :=
  let potential := still2.filter (fun p => p.norm_category = p1.norm_category)
  match phase2Best p1 st.matchedIds potential none θ with
  | (some p2, hs) =>
    { matchedIds := st.matchedIds ++ [p2.id]
      matchList := st.matchList ++ [⟨p1, p2, "Category & Specs", hs⟩] }
  | (none, _) => st

def phase2Run (still2 : List FProduct) (θ : ℚ) :
    List FProduct → P2State → P2State
  | [], st => st
  | p1 :: rest, st => phase2Run still2 θ rest (phase2Step still2 θ st p1)

/-- Model of the field matcher `match_products(products1, products2,
spec_similarity_threshold)`: phase 1 (exact normalized model name and
category, best spec overlap), then phase 2 (same category, spec overlap
strictly above the threshold) over the leftovers. -/
def match_products_fields (products1 products2 : List FProduct) (θ : ℚ) :
    List FMatch :=
  let st1 := phase1Run products2 products1 ⟨initMap products2, [], []⟩
  let still2 := (firstOccNames products2).flatMap st1.mmap
  let st2 := phase2Run still2 θ st1.still1 ⟨[], []⟩
  st1.matchList ++ st2.matchList

/-- One raw CSV row, with the columns `load_products` consumes. -/
structure RawRow where
  modelName : String
  category : String
  specs : String
deriving DecidableEq

/-- Model of `load_products`: rows are numbered by CSV position (also the
skipped ones, as `enumerate` does); a row whose `extracted_specs` cell fails
JSON parsing is skipped with a warning and the remaining rows are still
loaded.  The model keeps exactly the rows parsing to a JSON object (a row
parsing to a non-object value is kept by the Python loader but can only crash
the matcher downstream; such rows are outside the model). -/
def loadAux : Nat → List RawRow → List FProduct
  | _, [] => []
  | i, r :: rest =>
    match parseJson r.specs with
    | some (Json.obj es) =>
      ⟨i, normalize_text r.modelName, normalize_text r.category, es⟩
        :: loadAux (i + 1) rest
    | _ => loadAux (i + 1) rest

def load_products (rows : List RawRow) : List FProduct :=
  loadAux 0 rows

/-! ## Theorems -/

/-- C3: the token-overlap guard (the composite reject condition the embedding
matcher applies) returns true iff the two sets of digit-bearing alphanumeric
tokens extracted from the two cleaned strings are disjoint AND both input
strings exceed 10 characters; whenever either string has length at most 10 it
returns false. -/
theorem C3_token_guard (s1 s2 : String) :
    (guardRejects s1 s2 = true ↔
      (10 < s1.length ∧ 10 < s2.length ∧
        ∀ t ∈ modelTokens s1, t ∉ modelTokens s2)) ∧
    (s1.length ≤ 10 ∨ s2.length ≤ 10 → guardRejects s1 s2 = false) := by
  have hmain : guardRejects s1 s2 = true ↔
      (10 < s1.length ∧ 10 < s2.length ∧
        ∀ t ∈ modelTokens s1, t ∉ modelTokens s2) := by
    simp [guardRejects, have_no_shared_model_tokens, List.all_eq_true,
      and_assoc]
  refine ⟨hmain, fun h => ?_⟩
  cases hb : guardRejects s1 s2 with
  | false => rfl
  | true =>
    obtain ⟨h1, h2, -⟩ := hmain.mp hb
    rcases h with h | h <;> omega

/-- Witness for C3 at a concrete pair of long strings with disjoint model
tokens. -/
theorem C3_token_guard_witness :
    10 < ("abcdefgh12345" : String).length ∧
      10 < ("zzzzzzzzzzz99" : String).length ∧
      ∀ t ∈ modelTokens "abcdefgh12345", t ∉ modelTokens "zzzzzzzzzzz99" :=
  (C3_token_guard "abcdefgh12345" "zzzzzzzzzzz99").1.mp (by decide)

/-- C9 counterexample: `"true"` is itself an output of spec flattening (it is
what flattening the JSON payload `"true"`, a JSON string, produces), yet
flattening it again yields `"True"` — the string parses as the JSON boolean
and is re-stringified — so flattening is not the identity on all of its own
outputs. -/
theorem C9_counterexample :
    parse_and_convert_specs (some "\"true\"") = some "true" ∧
    parse_and_convert_specs (some "true") = some "True" ∧
    ("True" : String) ≠ "true" := by decide

/-- C9 (amended): spec flattening returns unchanged every non-blank string
that does not parse as JSON (it is treated as plain text and used verbatim);
already-flattened strings that happen to re-parse as JSON (such as "true")
are re-interpreted instead. -/
theorem C9_flatten_fixed_nonjson (s : String) (h1 : pyStrip s ≠ "")
    (h2 : parseJson s = none) :
    parse_and_convert_specs (some s) = some s := by
  simp [parse_and_convert_specs, h1, h2]

/-- Witness for C9 (amended) at an already-flattened plain string. -/
theorem C9_flatten_fixed_nonjson_witness :
    pyStrip "a 1 b 2" ≠ "" ∧ parseJson "a 1 b 2" = none ∧
      parse_and_convert_specs (some "a 1 b 2") = some "a 1 b 2" :=
  ⟨by decide, by decide, C9_flatten_fixed_nonjson "a 1 b 2" (by decide) (by decide)⟩

/-- C7 counterexample: a malformed spec payload is recovered without hard
failure in both pipelines, but in the field matcher's loader the record does
NOT remain part of the matching input: `load_products` skips the row, while
the embedding pipeline keeps it with the raw text as opaque specs. -/
theorem C7_counterexample :
    parseJson "\x7boops" = none ∧
    load_products [⟨"X", "c", "\x7boops"⟩] = [] ∧
    parse_and_convert_specs (some "\x7boops") = some "\x7boops" := by decide

/-- C7 (amended): a JSON parse failure of a specification field is never
propagated as a hard failure.  In the embedding pipeline the field falls back
to opaque text and the record stays in the matching input; in the field
matcher's loader the failing record is skipped (dropped from the matching
input) and loading continues with the remaining rows. -/
theorem C7_parse_failure_recovery :
    (∀ s : String, parseJson s = none →
      parse_and_convert_specs (some s) = some (if pyStrip s = "" then "" else s)) ∧
    (∀ (r : RawRow) (rest : List RawRow) (i : Nat), parseJson r.specs = none →
      loadAux i (r :: rest) = loadAux (i + 1) rest) := by
  constructor
  · intro s h
    by_cases ht : pyStrip s = "" <;> simp [parse_and_convert_specs, h, ht]
  · intro r rest i h
    simp [loadAux, h]

/-- Witness for C7 (amended) at a concrete malformed payload. -/
theorem C7_parse_failure_recovery_witness :
    parseJson "not json at all" = none ∧
    parse_and_convert_specs (some "not json at all") =
      some (if pyStrip "not json at all" = "" then "" else "not json at all") ∧
    loadAux 0 [⟨"m", "c", "not json at all"⟩] = loadAux 1 [] :=
  ⟨by decide,
   C7_parse_failure_recovery.1 "not json at all" (by decide),
   C7_parse_failure_recovery.2 ⟨"m", "c", "not json at all"⟩ [] 0 (by decide)⟩

/-- C6: in the candidate scan for one A item, an unclaimed candidate whose
title score is below `title_threshold` ends the scan at once (the running
best is returned, the rest of the candidate list is never looked at), whereas
a candidate whose title score passes but whose spec score is below
`spec_threshold` is merely skipped and the scan continues on the remaining
candidates with the running best unchanged. -/
theorem C6_early_exit_vs_skip (sim : SimData) (P : EmbParams)
    (claimed : List Nat) (i j : Nat) (rest : List Nat)
    (best : Option EmbMatch) (hj : j ∉ claimed) :
    (sim.titleSim i j < P.titleThreshold →
      scanCandidates sim P claimed i (j :: rest) best = best) ∧
    (¬ sim.titleSim i j < P.titleThreshold →
      sim.specSim i j < P.specThreshold →
      scanCandidates sim P claimed i (j :: rest) best =
        scanCandidates sim P claimed i rest best) := by
  constructor
  · intro h
    simp [scanCandidates, hj, h]
  · intro h1 h2
    simp [scanCandidates, hj, h1, h2]

/-- Concrete scan inputs for the C6 witness. -/
def simC6w : SimData :=
  ⟨fun _ j => if j = 0 then (1 : ℚ)/4 else 1, fun _ _ => (1 : ℚ)/2,
   fun _ => "", fun _ => ""⟩

def pC6w : EmbParams := ⟨2, (1 : ℚ)/2, (3 : ℚ)/4⟩

/-- Witness for C6 at a concrete scan state. -/
theorem C6_early_exit_vs_skip_witness :
    (0 : Nat) ∉ ([] : List Nat) ∧
    (simC6w.titleSim 0 0 < pC6w.titleThreshold →
      scanCandidates simC6w pC6w [] 0 [0, 1] none = none) ∧
    (¬ simC6w.titleSim 0 1 < pC6w.titleThreshold →
      simC6w.specSim 0 1 < pC6w.specThreshold →
      scanCandidates simC6w pC6w [] 0 [1, 0] none =
        scanCandidates simC6w pC6w [] 0 [0] none) :=
  ⟨by decide,
   (C6_early_exit_vs_skip simC6w pC6w [] 0 0 [1] none (by decide)).1,
   (C6_early_exit_vs_skip simC6w pC6w [] 0 1 [0] none (by decide)).2⟩

/-! ### C8: key-order invariance of flattening -/

theorem jsonEntriesSize_of_perm {es1 es2 : List (String × Json)}
    (hp : es1.Perm es2) : jsonEntriesSize es1 = jsonEntriesSize es2 := by
  induction hp with
  | nil => rfl
  | cons x _ ih =>
    obtain ⟨k, v⟩ := x
    simp [jsonEntriesSize, ih]
  | swap x y l =>
    obtain ⟨k1, v1⟩ := x
    obtain ⟨k2, v2⟩ := y
    simp [jsonEntriesSize]
    omega
  | trans _ _ ih1 ih2 => exact ih1.trans ih2

theorem sortEntriesByKey_perm (es : List (String × Json)) :
    (sortEntriesByKey es).Perm es :=
  List.perm_insertionSort entryLE es

theorem sortEntriesByKey_sorted (es : List (String × Json)) :
    List.Sorted entryLE (sortEntriesByKey es) :=
  List.sorted_insertionSort entryLE es

theorem sortEntriesByKey_eq_of_perm {es1 es2 : List (String × Json)}
    (hp : es1.Perm es2) (hnd : (es1.map Prod.fst).Nodup) :
    sortEntriesByKey es1 = sortEntriesByKey es2 := by
  have hperm : (sortEntriesByKey es1).Perm (sortEntriesByKey es2) :=
    ((sortEntriesByKey_perm es1).trans hp).trans (sortEntriesByKey_perm es2).symm
  have hnodup : ∀ es : List (String × Json), (es.map Prod.fst).Nodup →
      List.Sorted (fun a b : String × Json => a.1 < b.1) (sortEntriesByKey es) := by
    intro es hnd'
    have hs := sortEntriesByKey_sorted es
    have hmapnd : ((sortEntriesByKey es).map Prod.fst).Nodup :=
      (((sortEntriesByKey_perm es).map Prod.fst).nodup_iff).mpr hnd'
    have hne : (sortEntriesByKey es).Pairwise
        (fun a b : String × Json => a.1 ≠ b.1) :=
      List.pairwise_map.mp hmapnd
    exact (hs.and hne).imp (fun h => lt_of_le_of_ne h.1 h.2)
  have hnd2 : (es2.map Prod.fst).Nodup := ((hp.map Prod.fst).nodup_iff).mp hnd
  haveI : IsAntisymm (String × Json) (fun a b : String × Json => a.1 < b.1) :=
    ⟨fun _ _ h1 h2 => absurd h1 (lt_asymm h2)⟩
  exact List.eq_of_perm_of_sorted hperm (hnodup es1 hnd) (hnodup es2 hnd2)

/-- C8: flattening two JSON objects that hold the same key/value pairs in
different orders yields identical flattened strings, because object keys are
iterated in sorted order. -/
theorem C8_key_order_invariance (es1 es2 : List (String × Json))
    (hp : es1.Perm es2) (hnd : (es1.map Prod.fst).Nodup) :
    flatten_json_for_text (Json.obj es1) = flatten_json_for_text (Json.obj es2) ∧
    json_to_representative_string (Json.obj es1) =
      json_to_representative_string (Json.obj es2) := by
  have hflat : flatten_json_for_text (Json.obj es1) =
      flatten_json_for_text (Json.obj es2) := by
    have hsize : jsonEntriesSize es1 = jsonEntriesSize es2 :=
      jsonEntriesSize_of_perm hp
    have h1 : jsonSize (Json.obj es1) = jsonEntriesSize es1 + 1 := by
      simp [jsonSize]; omega
    have h2 : jsonSize (Json.obj es2) = jsonEntriesSize es2 + 1 := by
      simp [jsonSize]; omega
    rw [flatten_json_for_text, flatten_json_for_text, h1, h2, hsize, flattenF,
      flattenF, sortEntriesByKey_eq_of_perm hp hnd]
  exact ⟨hflat, by simp [json_to_representative_string, hflat]⟩

/-- Witness for C8: the `{"a":"1","b":"2"}` / `{"b":"2","a":"1"}` example
from the specification. -/
theorem C8_key_order_invariance_witness :
    ([("a", Json.str "1"), ("b", Json.str "2")] : List (String × Json)).Perm
        [("b", Json.str "2"), ("a", Json.str "1")] ∧
    (([("a", Json.str "1"), ("b", Json.str "2")] :
        List (String × Json)).map Prod.fst).Nodup ∧
    json_to_representative_string
        (Json.obj [("a", Json.str "1"), ("b", Json.str "2")]) =
      json_to_representative_string
        (Json.obj [("b", Json.str "2"), ("a", Json.str "1")]) :=
  ⟨by decide, by decide,
   (C8_key_order_invariance _ _ (by decide) (by decide)).2⟩

/-! ### C5: the spec overlap score -/

/-- String-valued specification maps injected into the model's JSON-valued
representation. -/
def strEntries (s : List (String × String)) : List (String × Json) :=
  s.map (fun e => (e.1, Json.str e.2))

/-- The specification's description of `spec_overlap_score` over string-valued
maps: for each key of the union, compare the two values as case-insensitive
trimmed strings, a key missing on one side counting as a non-match; the score
is the matching-key count over the union-key count. -/
def specDescribedScore (s1 s2 : List (String × String)) : ℚ :=
  let U := ((s1 ++ s2).map (fun e => e.1)).dedup
  ((U.filter (fun k =>
      match s1.find? (fun e => e.1 == k), s2.find? (fun e => e.1 == k) with
      | some e1, some e2 => pyLowerStrip e1.2 == pyLowerStrip e2.2
      | _, _ => false)).length : ℚ) / (U.length : ℚ)

theorem specGet_strEntries (s : List (String × String)) (k : String) :
    specGet (strEntries s) k =
      (s.find? (fun e => e.1 == k)).map (fun e => Json.str e.2) := by
  rw [specGet, strEntries, List.find?_map, Option.map_map]
  rfl

/-- C5: on non-empty string-valued specification maps,
`calculate_spec_similarity` computes exactly the described score: matching
union keys (values compared as case-insensitive trimmed strings, missing key =
non-match) divided by the number of union keys. -/
theorem C5_spec_overlap (s1 s2 : List (String × String))
    (h1 : s1 ≠ []) (h2 : s2 ≠ []) :
    calculate_spec_similarity (strEntries s1) (strEntries s2) =
      specDescribedScore s1 s2 := by
  have hne1 : strEntries s1 ≠ [] := by simp [strEntries, h1]
  have hne2 : strEntries s2 ≠ [] := by simp [strEntries, h2]
  have hkeys : ((strEntries s1 ++ strEntries s2).map (fun e => e.1)).dedup =
      ((s1 ++ s2).map (fun e => e.1)).dedup := by
    simp only [strEntries, List.map_append, List.map_map]
    rfl
  have hU : ((s1 ++ s2).map (fun e => e.1)).dedup ≠ [] := by
    intro hd
    rw [List.dedup_eq_nil] at hd
    simp only [List.map_eq_nil_iff, List.append_eq_nil] at hd
    exact h1 hd.1
  rw [calculate_spec_similarity, if_neg (by simp [hne1, hne2]), specDescribedScore]
  simp only [hkeys]
  rw [if_neg hU]
  have hfilter :
      List.filter
        (fun k => pyNormVal (specGet (strEntries s1) k) ==
          pyNormVal (specGet (strEntries s2) k))
        (((s1 ++ s2).map (fun e => e.1)).dedup) =
      List.filter
        (fun k =>
          match s1.find? (fun e => e.1 == k), s2.find? (fun e => e.1 == k) with
          | some e1, some e2 => pyLowerStrip e1.2 == pyLowerStrip e2.2
          | _, _ => false)
        (((s1 ++ s2).map (fun e => e.1)).dedup) := by
    apply List.filter_congr
    intro k hk
    have hk' : k ∈ (s1 ++ s2).map (fun e => e.1) := List.mem_dedup.mp hk
    rw [specGet_strEntries, specGet_strEntries]
    cases hf1 : s1.find? (fun e => e.1 == k) with
    | none =>
      cases hf2 : s2.find? (fun e => e.1 == k) with
      | none =>
        exfalso
        obtain ⟨e, he, rfl⟩ := List.mem_map.mp hk'
        rcases List.mem_append.mp he with he' | he'
        · have := List.find?_eq_none.mp hf1 e he'
          simp at this
        · have := List.find?_eq_none.mp hf2 e he'
          simp at this
      | some e2 => simp [pyNormVal]
    | some e1 =>
      cases hf2 : s2.find? (fun e => e.1 == k) with
      | none => simp [pyNormVal]
      | some e2 =>
        rw [Bool.eq_iff_iff]
        simp [pyNormVal, beq_iff_eq]
  rw [hfilter]

/-- Witness for C5 at concrete non-empty maps. -/
theorem C5_spec_overlap_witness :
    ([("a", " X "), ("b", "1")] : List (String × String)) ≠ [] ∧
    ([("a", "x"), ("c", "2")] : List (String × String)) ≠ [] ∧
    calculate_spec_similarity (strEntries [("a", " X "), ("b", "1")])
        (strEntries [("a", "x"), ("c", "2")]) =
      specDescribedScore [("a", " X "), ("b", "1")] [("a", "x"), ("c", "2")] :=
  ⟨by decide, by decide,
   C5_spec_overlap [("a", " X "), ("b", "1")] [("a", "x"), ("c", "2")]
     (by decide) (by decide)⟩

/-! ### The embedding matcher's loop invariants (C1, C2) -/

theorem scanCandidates_some (sim : SimData) (P : EmbParams)
    (claimed : List Nat) (i : Nat) (R : EmbMatch → Prop) :
    ∀ (cs : List Nat) (acc : Option EmbMatch),
      (∀ m, acc = some m → R m) →
      (∀ j ∈ cs, j ∉ claimed →
        P.titleThreshold ≤ sim.titleSim i j →
        P.specThreshold ≤ sim.specSim i j →
        guardRejects (sim.specs1 i) (sim.specs2 j) = false →
        R ⟨i, j, sim.titleSim i j, sim.specSim i j⟩) →
      ∀ m, scanCandidates sim P claimed i cs acc = some m → R m := by
  intro cs
  induction cs with
  | nil =>
    intro acc hacc _ m hm
    rw [scanCandidates] at hm
    exact hacc m hm
  | cons j rest ih =>
    intro acc hacc hcs m hm
    rw [scanCandidates] at hm
    split_ifs at hm with h1 h2 h3 h4 h5
    · exact ih acc hacc (fun j' hj' => hcs j' (List.mem_cons_of_mem _ hj')) m hm
    · exact hacc m hm
    · exact ih acc hacc (fun j' hj' => hcs j' (List.mem_cons_of_mem _ hj')) m hm
    · exact ih acc hacc (fun j' hj' => hcs j' (List.mem_cons_of_mem _ hj')) m hm
    · refine ih _ (fun m' hm' => ?_) (fun j' hj' => hcs j' (List.mem_cons_of_mem _ hj')) m hm
      cases hm'
      exact hcs j (List.mem_cons_self _ _) h1 (le_of_not_lt h2) (le_of_not_lt h3)
        (by simpa using h4)
    · exact ih acc hacc (fun j' hj' => hcs j' (List.mem_cons_of_mem _ hj')) m hm

theorem embLoop_inv (sim : SimData) (P : EmbParams) (n2 : Nat) :
    ∀ (is claimed : List Nat) (results : List EmbMatch), is.Nodup →
      (results.map (fun r => r.idx2)).Nodup →
      (∀ r ∈ results, r.idx2 ∈ claimed) →
      (results.map (fun r => r.idx1)).Nodup →
      (∀ r ∈ results, r.idx1 ∉ is) →
      (∀ r ∈ results, passesFilters sim P r.idx1 r.idx2) →
      ((embLoop sim P n2 is claimed results).map (fun r => r.idx2)).Nodup ∧
      ((embLoop sim P n2 is claimed results).map (fun r => r.idx1)).Nodup ∧
      (∀ r ∈ embLoop sim P n2 is claimed results,
        passesFilters sim P r.idx1 r.idx2) := by
  intro is
  induction is with
  | nil =>
    intro claimed results _ h2 _ h4 _ h6
    rw [embLoop]
    exact ⟨h2, h4, h6⟩
  | cons i is' ih =>
    intro claimed results hnd h2 h3 h4 h5 h6
    rw [embLoop]
    cases hscan : scanCandidates sim P claimed i
        (candidateIndices (sim.titleSim i) n2 P.topK) none with
    | none =>
      exact ih claimed results (List.nodup_cons.mp hnd).2 h2 h3 h4
        (fun r hr => fun hmem => h5 r hr (List.mem_cons_of_mem _ hmem)) h6
    | some m =>
      have hm := scanCandidates_some sim P claimed i
        (fun m => m.idx1 = i ∧ m.idx2 ∉ claimed ∧
          passesFilters sim P m.idx1 m.idx2)
        (candidateIndices (sim.titleSim i) n2 P.topK) none
        (by intro m' hm'; cases hm')
        (fun j _ hjc ht hs hg => ⟨rfl, hjc, ht, hs, hg⟩) m hscan
      obtain ⟨hmi, hmc, hmp⟩ := hm
      apply ih
      · exact (List.nodup_cons.mp hnd).2
      · rw [List.map_append, List.nodup_append]
        refine ⟨h2, by simp, fun x hx => ?_⟩
        obtain ⟨r, hr, rfl⟩ := List.mem_map.mp hx
        simp only [List.map_cons, List.map_nil, List.mem_singleton]
        intro hcontra
        exact hmc (hcontra ▸ h3 r hr)
      · intro r hr
        rcases List.mem_append.mp hr with hr' | hr'
        · exact List.mem_append_left _ (h3 r hr')
        · rw [List.mem_singleton.mp hr']
          exact List.mem_append_right _ (List.mem_singleton.mpr rfl)
      · rw [List.map_append, List.nodup_append]
        refine ⟨h4, by simp, fun x hx => ?_⟩
        obtain ⟨r, hr, rfl⟩ := List.mem_map.mp hx
        simp only [List.map_cons, List.map_nil, List.mem_singleton]
        intro hcontra
        exact h5 r hr (by rw [hcontra, hmi]; exact List.mem_cons_self _ _)
      · intro r hr
        rcases List.mem_append.mp hr with hr' | hr'
        · exact fun hmem => h5 r hr' (List.mem_cons_of_mem _ hmem)
        · rw [List.mem_singleton.mp hr', hmi]
          exact (List.nodup_cons.mp hnd).1
      · intro r hr
        rcases List.mem_append.mp hr with hr' | hr'
        · exact h6 r hr'
        · rw [List.mem_singleton.mp hr']
          exact hmp

section RatEval

/- Batteries marks the `Rat` arithmetic operations `@[irreducible]`; concrete
evaluation of the matchers by `decide` needs them unfolded. -/
attribute [local semireducible] Rat.add Rat.mul Rat.inv

/-- Concrete two-against-one instance for C2: identical title scores, spec
scores 0.85 and 0.95, spec strings short enough that the guard is idle. -/
def simC2 : SimData :=
  ⟨fun _ _ => (9 : ℚ)/10,
   fun i _ => if i = 0 then (17 : ℚ)/20 else (19 : ℚ)/20,
   fun _ => "", fun _ => ""⟩

def pC2low : EmbParams := ⟨3, (1 : ℚ)/2, (4 : ℚ)/5⟩

def pC2high : EmbParams := ⟨3, (1 : ℚ)/2, (9 : ℚ)/10⟩

/-- C2 counterexample: raising `spec_threshold` (everything else equal) frees
the single B record from A-record 0 (whose spec score 0.85 no longer passes)
and hands it to A-record 1, so the higher-threshold run commits the pair
(1, 0), which the lower-threshold run does not contain — the result set of the
raised-threshold run is not a subset of the lower-threshold run's. -/
theorem C2_counterexample :
    pC2low.topK = pC2high.topK ∧
    pC2low.titleThreshold = pC2high.titleThreshold ∧
    pC2low.specThreshold ≤ pC2high.specThreshold ∧
    (match_products_emb simC2 pC2low 2 1).map (fun m => (m.idx1, m.idx2)) =
      [(0, 0)] ∧
    (match_products_emb simC2 pC2high 2 1).map (fun m => (m.idx1, m.idx2)) =
      [(1, 0)] ∧
    ((1, 0) : Nat × Nat) ∉
      (match_products_emb simC2 pC2low 2 1).map (fun m => (m.idx1, m.idx2)) := by
  decide

/-- C2 (amended): the per-candidate filter is antitone in the thresholds —
every pair the matcher commits under raised thresholds still passes the
per-pair title/spec/guard filter of the lower-threshold settings — but the
committed match set itself is not monotone, because dropping an earlier
A-record's match can free a B record for a later A-record
(`C2_counterexample`). -/
theorem C2_threshold_filter_antitone (sim : SimData) (P P' : EmbParams)
    (n1 n2 : Nat) (ht : P.titleThreshold ≤ P'.titleThreshold)
    (hs : P.specThreshold ≤ P'.specThreshold) :
    ∀ m ∈ match_products_emb sim P' n1 n2,
      passesFilters sim P m.idx1 m.idx2 := by
  intro m hm
  have hp' := (embLoop_inv sim P' n2 (List.range n1) [] [] (List.nodup_range n1)
    (by simp) (by simp) (by simp) (by simp) (by simp)).2.2 m hm
  exact ⟨le_trans ht hp'.1, le_trans hs hp'.2.1, hp'.2.2⟩

/-- Witness for C2 (amended) at the concrete counterexample instance: the
pair committed under the raised spec threshold passes the lower-threshold
filter. -/
theorem C2_threshold_filter_antitone_witness :
    pC2low.titleThreshold ≤ pC2high.titleThreshold ∧
    pC2low.specThreshold ≤ pC2high.specThreshold ∧
    (⟨1, 0, (9 : ℚ)/10, (19 : ℚ)/20⟩ : EmbMatch) ∈
      match_products_emb simC2 pC2high 2 1 ∧
    passesFilters simC2 pC2low 1 0 :=
  ⟨by decide, by decide, by decide,
   C2_threshold_filter_antitone simC2 pC2low pC2high 2 1 (by decide) (by decide)
     ⟨1, 0, (9 : ℚ)/10, (19 : ℚ)/20⟩ (by decide)⟩

end RatEval

/-! ### The field matcher's loop invariants (C1, C4, C10) -/

theorem phase1Best_some (p1 : FProduct) (Q : FProduct → Prop) :
    ∀ (l : List FProduct) (best : Option FProduct) (hs : ℚ),
      (∀ q, best = some q → Q q) →
      (∀ p2 ∈ l, p1.norm_category = p2.norm_category → Q p2) →
      ∀ q, (phase1Best p1 l best hs).1 = some q → Q q := by
  intro l
  induction l with
  | nil =>
    intro best hs hbest _ q hq
    rw [phase1Best] at hq
    exact hbest q hq
  | cons p2 rest ih =>
    intro best hs hbest hl q hq
    rw [phase1Best] at hq
    split_ifs at hq with h1 h2
    · exact ih _ _ (fun q' hq' => by cases hq'; exact hl p2 (List.mem_cons_self _ _) h1)
        (fun p' hp' => hl p' (List.mem_cons_of_mem _ hp')) q hq
    · exact ih _ _ hbest (fun p' hp' => hl p' (List.mem_cons_of_mem _ hp')) q hq
    · exact ih _ _ hbest (fun p' hp' => hl p' (List.mem_cons_of_mem _ hp')) q hq

theorem phase2Best_some (p1 : FProduct) (ids : List Nat) (Q : FProduct → Prop) :
    ∀ (l : List FProduct) (best : Option FProduct) (hs : ℚ),
      (∀ q, best = some q → Q q) →
      (∀ p2 ∈ l, p2.id ∉ ids → Q p2) →
      ∀ q, (phase2Best p1 ids l best hs).1 = some q → Q q := by
  intro l
  induction l with
  | nil =>
    intro best hs hbest _ q hq
    rw [phase2Best] at hq
    exact hbest q hq
  | cons p2 rest ih =>
    intro best hs hbest hl q hq
    rw [phase2Best] at hq
    split_ifs at hq with h1 h2
    · exact ih _ _ hbest (fun p' hp' => hl p' (List.mem_cons_of_mem _ hp')) q hq
    · exact ih _ _ (fun q' hq' => by cases hq'; exact hl p2 (List.mem_cons_self _ _) h1)
        (fun p' hp' => hl p' (List.mem_cons_of_mem _ hp')) q hq
    · exact ih _ _ hbest (fun p' hp' => hl p' (List.mem_cons_of_mem _ hp')) q hq

/-- What is true of every committed phase-1 match: its tag, matching
categories, the exact shared normalized model name, and that the B record
comes from catalog B. -/
def P1Shape (ps2 : List FProduct) (m : FMatch) : Prop :=
  m.match_type = "Model Name & Category" ∧
  m.product1.norm_category = m.product2.norm_category ∧
  m.product2.norm_model_name = m.product1.norm_model_name ∧
  m.product2 ∈ ps2

/-- The groups of the model-name map hold only catalog-B records carrying
exactly the group's key (in B order): each group is a sublist of the
corresponding filter of catalog B. -/
def MMapInv (ps2 : List FProduct) (mm : String → List FProduct) : Prop :=
  ∀ k, (mm k).Sublist (ps2.filter (fun p => p.norm_model_name = k))

theorem phase1Step_shape (ps2 : List FProduct) (st : P1State) (p1 : FProduct)
    (ha : MMapInv ps2 st.mmap)
    (hd : ∀ m ∈ st.matchList, P1Shape ps2 m) :
    MMapInv ps2 (phase1Step ps2 st p1).mmap ∧
    (∀ m ∈ (phase1Step ps2 st p1).matchList, P1Shape ps2 m) := by
  rw [phase1Step]
  split_ifs with hany
  · rcases hbest : phase1Best p1 (st.mmap p1.norm_model_name) none (-1) with
      ⟨bestOpt, hs⟩
    cases bestOpt with
    | none => exact ⟨ha, hd⟩
    | some p2 =>
      have hp2 : p2 ∈ st.mmap p1.norm_model_name ∧
          p1.norm_category = p2.norm_category :=
        phase1Best_some p1
          (fun q => q ∈ st.mmap p1.norm_model_name ∧
            p1.norm_category = q.norm_category)
          (st.mmap p1.norm_model_name) none (-1)
          (fun q hq => by cases hq) (fun q hq hcat => ⟨hq, hcat⟩) p2
          (by rw [hbest])
      have hfil : p2 ∈ ps2.filter (fun p => p.norm_model_name = p1.norm_model_name) :=
        (ha p1.norm_model_name).subset hp2.1
      have hmem2 : p2 ∈ ps2 := (List.mem_filter.mp hfil).1
      have hname : p2.norm_model_name = p1.norm_model_name :=
        of_decide_eq_true (List.mem_filter.mp hfil).2
      constructor
      · intro k
        by_cases hk : k = p1.norm_model_name
        · simp only [hk, if_pos rfl]
          exact (List.erase_sublist _ _).trans (ha p1.norm_model_name)
        · simp only [if_neg hk]
          exact ha k
      · intro m hm
        rcases List.mem_append.mp hm with hm' | hm'
        · exact hd m hm'
        · rw [List.mem_singleton.mp hm']
          exact ⟨rfl, hp2.2, hname, hmem2⟩
  · exact ⟨ha, hd⟩

theorem phase1Run_shape (ps2 : List FProduct) :
    ∀ (ps1 : List FProduct) (st : P1State),
      MMapInv ps2 st.mmap →
      (∀ m ∈ st.matchList, P1Shape ps2 m) →
      MMapInv ps2 (phase1Run ps2 ps1 st).mmap ∧
      (∀ m ∈ (phase1Run ps2 ps1 st).matchList, P1Shape ps2 m) := by
  intro ps1
  induction ps1 with
  | nil =>
    intro st ha hd
    rw [phase1Run]
    exact ⟨ha, hd⟩
  | cons p1 rest ih =>
    intro st ha hd
    rw [phase1Run]
    have hstep := phase1Step_shape ps2 st p1 ha hd
    exact ih _ hstep.1 hstep.2

theorem phase1Step_excl (ps2 : List FProduct)
    (hnd2 : (ps2.map (fun p => p.id)).Nodup) (st : P1State) (p1 : FProduct)
    (ha : MMapInv ps2 st.mmap)
    (hb : ∀ m ∈ st.matchList, ∀ k,
      m.product2.id ∉ (st.mmap k).map (fun p => p.id))
    (hc : (st.matchList.map (fun m => m.product2.id)).Nodup) :
    MMapInv ps2 (phase1Step ps2 st p1).mmap ∧
    (∀ m ∈ (phase1Step ps2 st p1).matchList, ∀ k,
      m.product2.id ∉ ((phase1Step ps2 st p1).mmap k).map (fun p => p.id)) ∧
    ((phase1Step ps2 st p1).matchList.map (fun m => m.product2.id)).Nodup := by
  have hgrp : ∀ k, ∀ q ∈ st.mmap k, q ∈ ps2 ∧ q.norm_model_name = k := by
    intro k q hq
    have hfil := (ha k).subset hq
    exact ⟨(List.mem_filter.mp hfil).1,
      of_decide_eq_true (List.mem_filter.mp hfil).2⟩
  have hgrpnd : ∀ k, ((st.mmap k).map (fun p => p.id)).Nodup := by
    intro k
    exact hnd2.sublist
      (((ha k).trans (List.filter_sublist ps2)).map (fun p => p.id))
  rw [phase1Step]
  split_ifs with hany
  · rcases hbest : phase1Best p1 (st.mmap p1.norm_model_name) none (-1) with
      ⟨bestOpt, hs⟩
    cases bestOpt with
    | none => exact ⟨ha, hb, hc⟩
    | some p2 =>
      have hp2 : p2 ∈ st.mmap p1.norm_model_name :=
        phase1Best_some p1 (fun q => q ∈ st.mmap p1.norm_model_name)
          (st.mmap p1.norm_model_name) none (-1)
          (fun q hq => by cases hq) (fun q hq _ => hq) p2 (by rw [hbest])
      have hmem2 : p2 ∈ ps2 := (hgrp _ p2 hp2).1
      have hid_in : p2.id ∈ (st.mmap p1.norm_model_name).map (fun p => p.id) :=
        List.mem_map.mpr ⟨p2, hp2, rfl⟩
      -- p2.id is not in the erased group
      have herase : p2.id ∉
          ((st.mmap p1.norm_model_name).erase p2).map (fun p => p.id) := by
        have hperm : (st.mmap p1.norm_model_name).Perm
            (p2 :: (st.mmap p1.norm_model_name).erase p2) :=
          List.perm_cons_erase hp2
        have hnd' : ((p2 :: (st.mmap p1.norm_model_name).erase p2).map
            (fun p => p.id)).Nodup :=
          ((hperm.map (fun p => p.id)).nodup_iff).mp (hgrpnd _)
        rw [List.map_cons] at hnd'
        exact (List.nodup_cons.mp hnd').1
      -- p2.id is in no other group either
      have hother : ∀ k, k ≠ p1.norm_model_name →
          p2.id ∉ (st.mmap k).map (fun p => p.id) := by
        intro k hk hmem
        obtain ⟨q, hq, hqid⟩ := List.mem_map.mp hmem
        have heq : q = p2 :=
          List.inj_on_of_nodup_map hnd2 (hgrp _ q hq).1 hmem2 hqid
        rw [heq] at hq
        exact hk ((hgrp _ p2 hq).2.symm.trans (hgrp _ p2 hp2).2)
      constructor
      · intro k
        by_cases hk : k = p1.norm_model_name
        · simp only [hk, if_pos rfl]
          exact (List.erase_sublist _ _).trans (ha p1.norm_model_name)
        · simp only [if_neg hk]
          exact ha k
      constructor
      · intro m hm k
        rcases List.mem_append.mp hm with hm' | hm'
        · by_cases hk : k = p1.norm_model_name
          · simp only [hk, if_pos rfl]
            intro hmem
            exact hb m hm' p1.norm_model_name
              ((((st.mmap p1.norm_model_name).erase_sublist p2).map
                (fun p => p.id)).subset hmem)
          · simp only [if_neg hk]
            exact hb m hm' k
        · rw [List.mem_singleton.mp hm']
          by_cases hk : k = p1.norm_model_name
          · simp only [hk, if_pos rfl]
            exact herase
          · simp only [if_neg hk]
            exact hother k hk
      · rw [List.map_append, List.nodup_append]
        refine ⟨hc, by simp, fun x hx => ?_⟩
        obtain ⟨m, hm, rfl⟩ := List.mem_map.mp hx
        simp only [List.map_cons, List.map_nil, List.mem_singleton]
        intro hcontra
        exact hb m hm p1.norm_model_name (hcontra ▸ hid_in)
  · exact ⟨ha, hb, hc⟩

theorem phase1Run_excl (ps2 : List FProduct)
    (hnd2 : (ps2.map (fun p => p.id)).Nodup) :
    ∀ (ps1 : List FProduct) (st : P1State),
      MMapInv ps2 st.mmap →
      (∀ m ∈ st.matchList, ∀ k,
        m.product2.id ∉ (st.mmap k).map (fun p => p.id)) →
      (st.matchList.map (fun m => m.product2.id)).Nodup →
      MMapInv ps2 (phase1Run ps2 ps1 st).mmap ∧
      (∀ m ∈ (phase1Run ps2 ps1 st).matchList, ∀ k,
        m.product2.id ∉ ((phase1Run ps2 ps1 st).mmap k).map (fun p => p.id)) ∧
      ((phase1Run ps2 ps1 st).matchList.map (fun m => m.product2.id)).Nodup := by
  intro ps1
  induction ps1 with
  | nil =>
    intro st ha hb hc
    rw [phase1Run]
    exact ⟨ha, hb, hc⟩
  | cons p1 rest ih =>
    intro st ha hb hc
    rw [phase1Run]
    have hstep := phase1Step_excl ps2 hnd2 st p1 ha hb hc
    exact ih _ hstep.1 hstep.2.1 hstep.2.2

/-- Each phase-1 iteration routes its A record to exactly one of the two
output lists (a committed match or the phase-2 leftovers): the combined id
multiset grows by exactly that A record's id. -/
theorem phase1Step_aids (ps2 : List FProduct) (st : P1State) (p1 : FProduct) :
    (((phase1Step ps2 st p1).matchList.map (fun m => m.product1.id)) ++
      ((phase1Step ps2 st p1).still1.map (fun p => p.id))).Perm
    ((st.matchList.map (fun m => m.product1.id) ++
      st.still1.map (fun p => p.id)) ++ [p1.id]) := by
  rw [phase1Step]
  split_ifs with hany
  · rcases phase1Best p1 (st.mmap p1.norm_model_name) none (-1) with
      ⟨bestOpt, hs⟩
    cases bestOpt with
    | none =>
      simp only [List.map_append, List.map_cons, List.map_nil,
        ← List.append_assoc]
      exact List.Perm.refl _
    | some p2 =>
      simp only [List.map_append, List.map_cons, List.map_nil]
      rw [List.append_assoc, List.append_assoc]
      exact List.Perm.append_left _ List.perm_append_comm
  · simp only [List.map_append, List.map_cons, List.map_nil,
      ← List.append_assoc]
    exact List.Perm.refl _

theorem phase1Run_aids (ps2 : List FProduct) :
    ∀ (ps1 : List FProduct) (st : P1State),
      (((phase1Run ps2 ps1 st).matchList.map (fun m => m.product1.id)) ++
        ((phase1Run ps2 ps1 st).still1.map (fun p => p.id))).Perm
      ((st.matchList.map (fun m => m.product1.id) ++
        st.still1.map (fun p => p.id)) ++ ps1.map (fun p => p.id)) := by
  intro ps1
  induction ps1 with
  | nil =>
    intro st
    rw [phase1Run]
    simp
  | cons p1 rest ih =>
    intro st
    rw [phase1Run]
    refine (ih _).trans ?_
    refine (List.Perm.append_right (rest.map (fun p => p.id))
      (phase1Step_aids ps2 st p1)).trans ?_
    rw [List.append_assoc]
    exact List.Perm.refl _

/-- What is true of every committed phase-2 match. -/
def P2Shape (still2 : List FProduct) (m : FMatch) : Prop :=
  m.match_type = "Category & Specs" ∧
  m.product1.norm_category = m.product2.norm_category ∧
  m.product2 ∈ still2

theorem phase2Step_inv (still2 : List FProduct) (θ : ℚ) (st : P2State)
    (p1 : FProduct)
    (hnd : (st.matchList.map (fun m => m.product2.id)).Nodup)
    (hsub : ∀ m ∈ st.matchList, m.product2.id ∈ st.matchedIds)
    (hshape : ∀ m ∈ st.matchList, P2Shape still2 m) :
    ((phase2Step still2 θ st p1).matchList.map
      (fun m => m.product2.id)).Nodup ∧
    (∀ m ∈ (phase2Step still2 θ st p1).matchList,
      m.product2.id ∈ (phase2Step still2 θ st p1).matchedIds) ∧
    (∀ m ∈ (phase2Step still2 θ st p1).matchList, P2Shape still2 m) := by
  rw [phase2Step]
  rcases hbest : phase2Best p1 st.matchedIds
      (still2.filter (fun p => p.norm_category = p1.norm_category)) none θ with
    ⟨bestOpt, hs⟩
  cases bestOpt with
  | none => exact ⟨hnd, hsub, hshape⟩
  | some p2 =>
    have hp2 : p2 ∈ still2.filter (fun p => p.norm_category = p1.norm_category) ∧
        p2.id ∉ st.matchedIds :=
      phase2Best_some p1 st.matchedIds
        (fun q => q ∈ still2.filter (fun p => p.norm_category = p1.norm_category) ∧
          q.id ∉ st.matchedIds)
        (still2.filter (fun p => p.norm_category = p1.norm_category)) none θ
        (fun q hq => by cases hq) (fun q hq hid => ⟨hq, hid⟩) p2
        (by rw [hbest])
    have hmem : p2 ∈ still2 := (List.mem_filter.mp hp2.1).1
    have hcat : p2.norm_category = p1.norm_category :=
      of_decide_eq_true (List.mem_filter.mp hp2.1).2
    refine ⟨?_, ?_, ?_⟩
    · rw [List.map_append, List.nodup_append]
      refine ⟨hnd, by simp, fun x hx => ?_⟩
      obtain ⟨m, hm, rfl⟩ := List.mem_map.mp hx
      simp only [List.map_cons, List.map_nil, List.mem_singleton]
      intro hcontra
      exact hp2.2 (hcontra ▸ hsub m hm)
    · intro m hm
      rcases List.mem_append.mp hm with hm' | hm'
      · exact List.mem_append_left _ (hsub m hm')
      · rw [List.mem_singleton.mp hm']
        exact List.mem_append_right _ (List.mem_singleton.mpr rfl)
    · intro m hm
      rcases List.mem_append.mp hm with hm' | hm'
      · exact hshape m hm'
      · rw [List.mem_singleton.mp hm']
        exact ⟨rfl, hcat.symm, hmem⟩

theorem phase2Run_inv (still2 : List FProduct) (θ : ℚ) :
    ∀ (ps1 : List FProduct) (st : P2State),
      (st.matchList.map (fun m => m.product2.id)).Nodup →
      (∀ m ∈ st.matchList, m.product2.id ∈ st.matchedIds) →
      (∀ m ∈ st.matchList, P2Shape still2 m) →
      ((phase2Run still2 θ ps1 st).matchList.map
        (fun m => m.product2.id)).Nodup ∧
      (∀ m ∈ (phase2Run still2 θ ps1 st).matchList, P2Shape still2 m) := by
  intro ps1
  induction ps1 with
  | nil =>
    intro st hnd _ hshape
    rw [phase2Run]
    exact ⟨hnd, hshape⟩
  | cons p1 rest ih =>
    intro st hnd hsub hshape
    rw [phase2Run]
    have hstep := phase2Step_inv still2 θ st p1 hnd hsub hshape
    exact ih _ hstep.1 hstep.2.1 hstep.2.2

theorem phase2Step_p1ids (still2 : List FProduct) (θ : ℚ) (st : P2State)
    (p1 : FProduct) :
    ((phase2Step still2 θ st p1).matchList.map (fun m => m.product1.id)).Sublist
      ((st.matchList.map (fun m => m.product1.id)) ++ [p1.id]) := by
  rw [phase2Step]
  rcases phase2Best p1 st.matchedIds
      (still2.filter (fun p => p.norm_category = p1.norm_category)) none θ with
    ⟨bestOpt, hs⟩
  cases bestOpt with
  | none => exact List.sublist_append_left _ _
  | some p2 =>
    rw [List.map_append]
    exact List.Sublist.refl _

theorem phase2Run_p1ids (still2 : List FProduct) (θ : ℚ) :
    ∀ (ps1 : List FProduct) (st : P2State),
      ((phase2Run still2 θ ps1 st).matchList.map
        (fun m => m.product1.id)).Sublist
        ((st.matchList.map (fun m => m.product1.id)) ++
          ps1.map (fun p => p.id)) := by
  intro ps1
  induction ps1 with
  | nil =>
    intro st
    rw [phase2Run, List.map_nil, List.append_nil]
  | cons p1 rest ih =>
    intro st
    rw [phase2Run]
    refine (ih _).trans ?_
    have hstep := (phase2Step_p1ids still2 θ st p1).append_right
      (rest.map (fun p => p.id))
    rw [List.append_assoc] at hstep
    exact hstep

/-- C10: every match emitted by the two-phase field matcher — in either
phase — pairs two records whose normalized category strings are equal
(phase 1 checks categories explicitly; phase 2 only ever draws candidates
from the same-category group). -/
theorem C10_same_category (ps1 ps2 : List FProduct) (θ : ℚ) :
    ∀ m ∈ match_products_fields ps1 ps2 θ,
      m.product1.norm_category = m.product2.norm_category := by
  intro m hm
  simp only [match_products_fields] at hm
  rcases List.mem_append.mp hm with hm' | hm'
  · have hshape := (phase1Run_shape ps2 ps1 ⟨initMap ps2, [], []⟩
      (fun _ => List.Sublist.refl _) (by simp)).2 m hm'
    exact hshape.2.1
  · have hshape := (phase2Run_inv _ θ _ ⟨[], []⟩ (by simp) (by simp)
      (by simp)).2 m hm'
    exact hshape.2.1

/-- C4 (amended): a Phase-1 match requires only that the A record's
normalized model name be a key of the catalog-B grouping — i.e. that some B
record (in particular the matched one) carry the same normalized model name.
The code never requires that name to be nonempty: an A record whose
normalized model name is the empty string still gets a Phase-1 match when
some B record also has an empty normalized model name
(`C4_counterexample`). -/
theorem C4_phase1_shares_model_name (ps1 ps2 : List FProduct) (θ : ℚ) :
    ∀ m ∈ match_products_fields ps1 ps2 θ,
      m.match_type = "Model Name & Category" →
      m.product2 ∈ ps2 ∧
        m.product2.norm_model_name = m.product1.norm_model_name := by
  intro m hm htype
  simp only [match_products_fields] at hm
  rcases List.mem_append.mp hm with hm' | hm'
  · have hshape := (phase1Run_shape ps2 ps1 ⟨initMap ps2, [], []⟩
      (fun _ => List.Sublist.refl _) (by simp)).2 m hm'
    exact ⟨hshape.2.2.2, hshape.2.2.1⟩
  · have hshape := (phase2Run_inv _ θ _ ⟨[], []⟩ (by simp) (by simp)
      (by simp)).2 m hm'
    exact absurd (hshape.1.symm.trans htype) (by decide)

/-- C1: exclusivity of both matchers.  The embedding matcher never commits
the same B index twice nor the same A index twice; the field matcher (given
the distinct row ids `load_products` assigns) never commits the same B record
twice nor the same A record twice, across both phases of a run. -/
theorem C1_exclusive_matching :
    (∀ (sim : SimData) (P : EmbParams) (n1 n2 : Nat),
      ((match_products_emb sim P n1 n2).map (fun r => r.idx2)).Nodup ∧
      ((match_products_emb sim P n1 n2).map (fun r => r.idx1)).Nodup) ∧
    (∀ (ps1 ps2 : List FProduct) (θ : ℚ),
      (ps1.map (fun p => p.id)).Nodup →
      (ps2.map (fun p => p.id)).Nodup →
      ((match_products_fields ps1 ps2 θ).map
        (fun m => m.product2.id)).Nodup ∧
      ((match_products_fields ps1 ps2 θ).map
        (fun m => m.product1.id)).Nodup) := by
  constructor
  · intro sim P n1 n2
    have h := embLoop_inv sim P n2 (List.range n1) [] [] (List.nodup_range n1)
      (by simp) (by simp) (by simp) (by simp) (by simp)
    exact ⟨h.1, h.2.1⟩
  · intro ps1 ps2 θ hnd1 hnd2
    obtain ⟨hmm1, hb1, hc1⟩ := phase1Run_excl ps2 hnd2 ps1
      ⟨initMap ps2, [], []⟩ (fun _ => List.Sublist.refl _) (by simp) (by simp)
    have haids := phase1Run_aids ps2 ps1 ⟨initMap ps2, [], []⟩
    simp only [List.map_nil, List.nil_append, List.append_nil] at haids
    have haidsnd :
        ((phase1Run ps2 ps1 ⟨initMap ps2, [], []⟩).matchList.map
            (fun m => m.product1.id) ++
          (phase1Run ps2 ps1 ⟨initMap ps2, [], []⟩).still1.map
            (fun p => p.id)).Nodup :=
      (haids.nodup_iff).mpr hnd1
    obtain ⟨ndA1, ndS1, disjA1S1⟩ := List.nodup_append.mp haidsnd
    obtain ⟨nd2, hshape2⟩ := phase2Run_inv
      ((firstOccNames ps2).flatMap
        (phase1Run ps2 ps1 ⟨initMap ps2, [], []⟩).mmap) θ
      (phase1Run ps2 ps1 ⟨initMap ps2, [], []⟩).still1 ⟨[], []⟩
      (by simp) (by simp) (by simp)
    have hp2ids := phase2Run_p1ids
      ((firstOccNames ps2).flatMap
        (phase1Run ps2 ps1 ⟨initMap ps2, [], []⟩).mmap) θ
      (phase1Run ps2 ps1 ⟨initMap ps2, [], []⟩).still1 ⟨[], []⟩
    simp only [List.map_nil, List.nil_append] at hp2ids
    simp only [match_products_fields]
    constructor
    · rw [List.map_append, List.nodup_append]
      refine ⟨hc1, nd2, fun x hx1 hx2 => ?_⟩
      obtain ⟨m2, hm2, rfl⟩ := List.mem_map.mp hx2
      obtain ⟨m1, hm1, hid⟩ := List.mem_map.mp hx1
      have hmem2 := (hshape2 m2 hm2).2.2
      obtain ⟨k, -, hk⟩ := List.mem_flatMap.mp hmem2
      exact hb1 m1 hm1 k (hid ▸ List.mem_map.mpr ⟨m2.product2, hk, rfl⟩)
    · rw [List.map_append, List.nodup_append]
      exact ⟨ndA1, ndS1.sublist hp2ids,
        fun x hx1 hx2 => disjA1S1 hx1 (hp2ids.subset hx2)⟩

section RatEvalField

attribute [local semireducible] Rat.add Rat.mul Rat.inv

/-- Concrete pair for the C10 witness. -/
def w10A : FProduct := ⟨0, "mx", "cat", [("k", Json.str "v")]⟩

def w10B : FProduct := ⟨7, "mx", "cat", [("k", Json.str "v")]⟩

def w10M : FMatch := ⟨w10A, w10B, "Model Name & Category", 1⟩

/-- Witness for C10 at a concrete one-against-one run. -/
theorem C10_same_category_witness :
    w10M ∈ match_products_fields [w10A] [w10B] ((4 : ℚ)/5) ∧
    w10M.product1.norm_category = w10M.product2.norm_category :=
  ⟨by decide,
   C10_same_category [w10A] [w10B] ((4 : ℚ)/5) w10M (by decide)⟩

/-- A catalog-A record whose normalized model name is empty. -/
def c4A : FProduct := ⟨0, "", "c", [("k", Json.str "v")]⟩

/-- A catalog-B record whose normalized model name is also empty. -/
def c4B : FProduct := ⟨100, "", "c", [("k", Json.str "v")]⟩

/-- C4 counterexample: the empty string is a key of catalog B's model-name
grouping (B has a record with empty normalized model name), and the A record
with empty normalized model name DOES receive a Phase-1 match — the code
never requires the key to be nonempty. -/
theorem C4_counterexample :
    c4A.norm_model_name = "" ∧
    (match_products_fields [c4A] [c4B] ((4 : ℚ)/5)).map
        (fun m => (m.product1.id, m.product2.id, m.match_type)) =
      [(0, 100, "Model Name & Category")] := by decide

def c4M : FMatch := ⟨c4A, c4B, "Model Name & Category", 1⟩

/-- Witness for C4 (amended) at the concrete empty-model-name run. -/
theorem C4_phase1_shares_model_name_witness :
    c4M ∈ match_products_fields [c4A] [c4B] ((4 : ℚ)/5) ∧
    c4M.match_type = "Model Name & Category" ∧
    (c4M.product2 ∈ [c4B] ∧
      c4M.product2.norm_model_name = c4M.product1.norm_model_name) :=
  ⟨by decide, by decide,
   C4_phase1_shares_model_name [c4A] [c4B] ((4 : ℚ)/5) c4M (by decide)
     (by decide)⟩

def c1A : FProduct := ⟨0, "m", "c", [("k", Json.str "v")]⟩

def c1B : FProduct := ⟨5, "m", "c", [("k", Json.str "v")]⟩

/-- Witness for C1 at a concrete run of each matcher. -/
theorem C1_exclusive_matching_witness :
    (([c1A].map (fun p => p.id)).Nodup ∧
      ([c1B].map (fun p => p.id)).Nodup) ∧
    ((match_products_fields [c1A] [c1B] ((4 : ℚ)/5)).map
      (fun m => m.product2.id)).Nodup ∧
    ((match_products_fields [c1A] [c1B] ((4 : ℚ)/5)).map
      (fun m => m.product1.id)).Nodup :=
  ⟨⟨by decide, by decide⟩,
   C1_exclusive_matching.2 [c1A] [c1B] ((4 : ℚ)/5) (by decide) (by decide)⟩

end RatEvalField
